import Mathlib

/-!
Verification of the `FSMInstance` finite-state-machine primitive
(`src/lib/fsm.ts`).

The TypeScript class holds a current state (string), a `Set<string>` of
known states, a `Map<string, FSMTransition>` of named transitions, a
derived adjacency `Map<string, Set<string>>` (`paths`) and a listener
registry `Map<string, FSMTransitionCallback[]>`.

Shallow embedding choices:
* JavaScript `Map` objects are modelled as association lists with the
  insertion-ordered get/set/has/delete operations below; `Set<string>`
  is a duplicate-free insertion-ordered list.
* Listener callbacks are opaque values of a type parameter `C`;
  the `===` reference comparison used by `off` becomes decidable
  equality on `C`.
* `move` is effectful in the source; here it returns the updated
  instance together with the ordered trace of listener invocations,
  each recorded as `(callback, fromState, toState)` (the callback also
  receives the instance itself as first argument in the source).
* Thrown `RangeError`s become `Except RangeError` results, with the
  exact message strings of the source reproduced.
-/

/-- A `RangeError` thrown by the source, carrying its message. -/
structure RangeError where
  message : String
deriving DecidableEq

/-- `Map.get`: first value stored under key `k`, if any. -/
def mapGet {α : Type} (k : String) : List (String × α) → Option α
  | [] => none
  | (k2, v) :: rest => if k2 = k then some v else mapGet k rest

/-- `Map.set`: replace the value under `k`, or append a fresh entry. -/
def mapSet {α : Type} (k : String) (v : α) : List (String × α) → List (String × α)
  | [] => [(k, v)]
  | (k2, v2) :: rest => if k2 = k then (k, v) :: rest else (k2, v2) :: mapSet k v rest

/-- `Map.has`. -/
def mapHas {α : Type} (k : String) (m : List (String × α)) : Bool :=
  (mapGet k m).isSome

/-- `Map.delete`: remove the entry stored under `k`. -/
def mapDelete {α : Type} (k : String) : List (String × α) → List (String × α)
  | [] => []
  | (k2, v) :: rest => if k2 = k then mapDelete k rest else (k2, v) :: mapDelete k rest

/-- `Set.add`: append `x` unless already present. -/
def setAdd (x : String) (s : List String) : List String :=
  if x ∈ s then s else s ++ [x]

/-- The private `FSMTransition` record of the source. -/
structure FSMTransition where
  name : String
  sources : List String
  dest : String
  willcard : Bool
deriving DecidableEq

/-- The `FSMTransition` constructor: if `"*"` occurs anywhere in
`sources` the stored source list collapses to `["*"]` and the
transition is marked as a wildcard (`willcard` field in the source). -/
def FSMTransition.make (name : String) (sources : List String) (dest : String) : FSMTransition :=
  if sources.contains "*" then
    ⟨name, ["*"], dest, true⟩
  else
    ⟨name, sources, dest, false⟩

/-- The `FSMInstance` class state: current state, known states,
transition map, adjacency map (`paths`) and listener registry.
`C` is the type of listener callbacks. -/
structure FSMInstance (C : Type) where
  _state : String
  states : List String
  transitions : List (String × FSMTransition)
  paths : List (String × List String)
  listeners : List (String × List C)

/-- The constructor: only the current state is initialised. -/
def FSMInstance.construct (C : Type) (init : String) : FSMInstance C :=
  ⟨init, [], [], [], []⟩

/-- The `state` getter. -/
def FSMInstance.state {C : Type} (inst : FSMInstance C) : String :=
  inst._state

/-- `on(state, listener)`: append `listener` to the state's callback
list, creating the list when absent. -/
def FSMInstance.on {C : Type} (inst : FSMInstance C) (s : String) (listener : C) :
    FSMInstance C :=
  { inst with listeners := mapSet s (((mapGet s inst.listeners).getD []) ++ [listener]) inst.listeners }

/-- The loop inside `off` with a listener argument: remove the first
occurrence (reference equality in the source) and stop. -/
def removeFirst {C : Type} [DecidableEq C] (fn : C) : List C → List C
  | [] => []
  | x :: xs => if x = fn then xs else x :: removeFirst fn xs

/-- `off(state, listener?)`: with a listener, remove its first
occurrence from the state's list (a no-op on the registry when the
state has no list, since the source then splices a fresh array);
without one, delete the state's whole entry. -/
def FSMInstance.off {C : Type} [DecidableEq C] (inst : FSMInstance C) (s : String)
    (listener : Option C) : FSMInstance C :=
  match listener with
  | some fn =>
    match mapGet s inst.listeners with
    | none => inst
    | some l => { inst with listeners := mapSet s (removeFirst fn l) inst.listeners }
  | none => { inst with listeners := mapDelete s inst.listeners }

/-- `can(name)`. -/
def FSMInstance.can {C : Type} (inst : FSMInstance C) (name : String) : Bool :=
  match mapGet name inst.transitions with
  | none => false
  | some t =>
    if !t.willcard && !(t.sources.contains inst._state) then false else true

/-- Message of the unknown-transition error of `move`. -/
def notFoundMsg (name : String) : String :=
  "FSMInstance.move(): not found transition \x27" ++ name ++ "\x27"

/-- Message of the illegal-transition error of `move`; JavaScript
string interpolation of an array joins it with commas. -/
def illegalMsg (sources : List String) (st : String) : String :=
  "FSMInstance.move(): current state expected is \x27" ++ String.intercalate "," sources ++
    "\x27, actual is \x27" ++ st ++ "\x27"

/-- Message of the duplicate-name error of `set`. -/
def dupMsg (name : String) : String :=
  "FSMInstance.set(): transition \x27" ++ name ++ "\x27 already exists"

/-- `move(name)`: on success returns the updated instance and the
ordered trace of listener invocations `(callback, from, dest)`. -/
def FSMInstance.move {C : Type} (inst : FSMInstance C) (name : String) :
    Except RangeError (FSMInstance C × List (C × String × String)) :=
  match mapGet name inst.transitions with
  | none => Except.error ⟨notFoundMsg name⟩
  | some t =>
    if !t.willcard && !(t.sources.contains inst._state) then
      Except.error ⟨illegalMsg t.sources inst._state⟩
    else
      let fromState := inst._state
      let inst2 := { inst with _state := t.dest }
      Except.ok (inst2,
        ((mapGet t.dest inst2.listeners).getD []).map (fun fn => (fn, fromState, t.dest)))

/-- The `sources.forEach` loop of `set`: add each source to the known
states and record `dest` as reachable from it in `paths`. -/
def setLoop {C : Type} (dest : String) : List String → FSMInstance C → FSMInstance C
  | [], inst => inst
  | source :: rest, inst =>
    setLoop dest rest
      { inst with
        states := setAdd source inst.states,
        paths := mapSet source (setAdd dest ((mapGet source inst.paths).getD [])) inst.paths }

/-- `set(name, sources, dest)` (after normalising a single source
string to a one-element array, which the caller of this embedding does
by passing a singleton list). -/
def FSMInstance.set {C : Type} (inst : FSMInstance C) (name : String) (sources : List String)
    (dest : String) : Except RangeError (FSMInstance C) :=
  if mapHas name inst.transitions then
    Except.error ⟨dupMsg name⟩
  else
    Except.ok (setLoop dest sources
      { inst with
        transitions := mapSet name (FSMTransition.make name sources dest) inst.transitions,
        states := setAdd dest inst.states })

/-- Callback list registered for state `s` (empty when absent). -/
def listenersOf {C : Type} (inst : FSMInstance C) (s : String) : List C :=
  (mapGet s inst.listeners).getD []

/-- Destination set recorded in the adjacency map for source `s`. -/
def pathsOf {C : Type} (inst : FSMInstance C) (s : String) : List String :=
  (mapGet s inst.paths).getD []

/-! ### Lemmas about the map and set helpers -/

theorem mapGet_mapSet_self {α : Type} (k : String) (v : α) :
    ∀ m : List (String × α), mapGet k (mapSet k v m) = some v
  | [] => by simp [mapGet, mapSet]
  | (k2, v2) :: rest => by
    by_cases h : k2 = k
    · simp [mapGet, mapSet, h]
    · simp [mapGet, mapSet, h, mapGet_mapSet_self k v rest]

theorem mapGet_mapSet_ne {α : Type} (k k2 : String) (v : α) (hne : k2 ≠ k) :
    ∀ m : List (String × α), mapGet k2 (mapSet k v m) = mapGet k2 m
  | [] => by
    have h : ¬k = k2 := Ne.symm hne
    simp [mapGet, mapSet, h]
  | (k3, v3) :: rest => by
    have h : ¬k = k2 := Ne.symm hne
    by_cases h3 : k3 = k
    · subst h3
      simp [mapGet, mapSet, h]
    · simp [mapGet, mapSet, h3, mapGet_mapSet_ne k k2 v hne rest]

theorem mapGet_mapDelete_self {α : Type} (k : String) :
    ∀ m : List (String × α), mapGet k (mapDelete k m) = none
  | [] => rfl
  | (k2, v2) :: rest => by
    by_cases h : k2 = k
    · simpa [mapDelete, h] using mapGet_mapDelete_self k rest
    · simpa [mapDelete, mapGet, h] using mapGet_mapDelete_self k rest

theorem mapGet_mapDelete_ne {α : Type} (k k2 : String) (hne : k2 ≠ k) :
    ∀ m : List (String × α), mapGet k2 (mapDelete k m) = mapGet k2 m
  | [] => rfl
  | (k3, v3) :: rest => by
    by_cases h : k3 = k
    · have h2 : ¬k = k2 := Ne.symm hne
      simpa [mapDelete, mapGet, h, h2] using mapGet_mapDelete_ne k k2 hne rest
    · by_cases h2 : k3 = k2
      · simp [mapDelete, mapGet, h, h2, hne]
      · simp [mapDelete, mapGet, h, h2, mapGet_mapDelete_ne k k2 hne rest]

theorem mem_setAdd (x y : String) (s : List String) :
    y ∈ setAdd x s ↔ y ∈ s ∨ y = x := by
  unfold setAdd
  by_cases h : x ∈ s
  · simp only [if_pos h]
    constructor
    · exact Or.inl
    · rintro (hy | rfl)
      · exact hy
      · exact h
  · simp [if_neg h]

theorem setAdd_self (x : String) (s : List String) : x ∈ setAdd x s :=
  (mem_setAdd x x s).mpr (Or.inr rfl)

theorem contains_eq_true_iff (l : List String) (x : String) :
    l.contains x = true ↔ x ∈ l := by
  simp [List.contains, List.elem_iff]

theorem mapGetD_mapSet {α : Type} (d : α) (s x : String) (v : α) (m : List (String × α)) :
    (mapGet x (mapSet s v m)).getD d = if s = x then v else (mapGet x m).getD d := by
  by_cases h : s = x
  · subst h
    simp [mapGet_mapSet_self]
  · simp [h, mapGet_mapSet_ne s x v (Ne.symm h) m]

/-! ### Lemmas about `removeFirst` (the loop of `off`) -/

theorem removeFirst_of_not_mem {C : Type} [DecidableEq C] (fn : C) :
    ∀ l : List C, fn ∉ l → removeFirst fn l = l
  | [], _ => rfl
  | x :: xs, h => by
    have hx : ¬x = fn := fun hx => h (hx ▸ List.mem_cons_self x xs)
    simp [removeFirst, hx, removeFirst_of_not_mem fn xs (fun hm => h (List.mem_cons_of_mem x hm))]

theorem removeFirst_append {C : Type} [DecidableEq C] (fn : C) :
    ∀ a b : List C, fn ∉ a → removeFirst fn (a ++ fn :: b) = a ++ b
  | [], b, _ => by simp [removeFirst]
  | x :: xs, b, h => by
    have hx : ¬x = fn := fun hx => h (hx ▸ List.mem_cons_self x xs)
    simp [removeFirst, hx,
      removeFirst_append fn xs b (fun hm => h (List.mem_cons_of_mem x hm))]

/-! ### Lemmas about `setLoop` (the `forEach` of `set`) -/

theorem setLoop_state {C : Type} (dest : String) :
    ∀ (srcs : List String) (inst : FSMInstance C),
      (setLoop dest srcs inst)._state = inst._state
  | [], _ => rfl
  | _ :: rest, _ => setLoop_state dest rest _

theorem setLoop_transitions {C : Type} (dest : String) :
    ∀ (srcs : List String) (inst : FSMInstance C),
      (setLoop dest srcs inst).transitions = inst.transitions
  | [], _ => rfl
  | _ :: rest, _ => setLoop_transitions dest rest _

theorem setLoop_listeners {C : Type} (dest : String) :
    ∀ (srcs : List String) (inst : FSMInstance C),
      (setLoop dest srcs inst).listeners = inst.listeners
  | [], _ => rfl
  | _ :: rest, _ => setLoop_listeners dest rest _

theorem setLoop_states_mono {C : Type} (dest x : String) :
    ∀ (srcs : List String) (inst : FSMInstance C),
      x ∈ inst.states → x ∈ (setLoop dest srcs inst).states
  | [], _, h => h
  | s :: rest, inst, h =>
    setLoop_states_mono dest x rest _ ((mem_setAdd s x inst.states).mpr (Or.inl h))

theorem setLoop_states_of_mem {C : Type} (dest x : String) :
    ∀ (srcs : List String) (inst : FSMInstance C),
      x ∈ srcs → x ∈ (setLoop dest srcs inst).states
  | s :: rest, inst, h => by
    rcases List.mem_cons.mp h with rfl | h2
    · exact setLoop_states_mono dest x rest _ (setAdd_self x inst.states)
    · exact setLoop_states_of_mem dest x rest _ h2

theorem setLoop_paths_dest_mono {C : Type} (dest x : String) :
    ∀ (srcs : List String) (inst : FSMInstance C),
      dest ∈ pathsOf inst x → dest ∈ pathsOf (setLoop dest srcs inst) x
  | [], _, h => h
  | s :: rest, inst, h => by
    refine setLoop_paths_dest_mono dest x rest _ ?_
    simp only [pathsOf] at h ⊢
    rw [mapGetD_mapSet]
    by_cases h2 : s = x
    · simp only [if_pos h2]
      subst h2
      exact setAdd_self dest _
    · simpa [if_neg h2] using h

theorem setLoop_paths_dest_of_mem {C : Type} (dest x : String) :
    ∀ (srcs : List String) (inst : FSMInstance C),
      x ∈ srcs → dest ∈ pathsOf (setLoop dest srcs inst) x
  | s :: rest, inst, h => by
    rcases List.mem_cons.mp h with rfl | h2
    · refine setLoop_paths_dest_mono dest x rest _ ?_
      simp only [pathsOf]
      rw [mapGetD_mapSet]
      simp only [if_pos rfl]
      exact setAdd_self dest _
    · exact setLoop_paths_dest_of_mem dest x rest _ h2

/-! ### Behaviour of `move` -/

/-- A transition is legal when it is a wildcard or lists the current
state among its sources; then `move` switches the state to `dest` and
dispatches, in order, exactly the callbacks registered for `dest`. -/
theorem move_ok {C : Type} (inst : FSMInstance C) (name : String) (t : FSMTransition)
    (hget : mapGet name inst.transitions = some t)
    (hlegal : t.willcard = true ∨ inst._state ∈ t.sources) :
    inst.move name = Except.ok ({ inst with _state := t.dest },
      (listenersOf inst t.dest).map (fun fn => (fn, inst._state, t.dest))) := by
  have hc : (!t.willcard && !(t.sources.contains inst._state)) = false := by
    rcases hlegal with h | h
    · simp [h]
    · simp [h]
  unfold FSMInstance.move
  rw [hget]
  simp only [hc, Bool.false_eq_true, if_false]
  rfl

/-- When the transition is unknown, `move` throws the not-found
`RangeError`. -/
theorem move_not_found {C : Type} (inst : FSMInstance C) (name : String)
    (hget : mapGet name inst.transitions = none) :
    inst.move name = Except.error ⟨notFoundMsg name⟩ := by
  unfold FSMInstance.move
  rw [hget]

/-- When the transition is known, not a wildcard, and the current
state is not among its sources, `move` throws the illegal-transition
`RangeError`. -/
theorem move_illegal {C : Type} (inst : FSMInstance C) (name : String) (t : FSMTransition)
    (hget : mapGet name inst.transitions = some t)
    (hw : t.willcard = false) (hs : inst._state ∉ t.sources) :
    inst.move name = Except.error ⟨illegalMsg t.sources inst._state⟩ := by
  have hc : (!t.willcard && !(t.sources.contains inst._state)) = true := by
    simp [hw, hs]
  unfold FSMInstance.move
  rw [hget]
  simp only [hc, if_true]

/-! ### Behaviour of `set` -/

/-- A fresh name registers: `set` stores the (possibly collapsed)
transition, adds `dest` to the known states and runs the source loop. -/
theorem set_fresh {C : Type} (inst : FSMInstance C) (name : String) (sources : List String)
    (dest : String) (h : mapGet name inst.transitions = none) :
    inst.set name sources dest = Except.ok (setLoop dest sources
      { inst with
        transitions := mapSet name (FSMTransition.make name sources dest) inst.transitions,
        states := setAdd dest inst.states }) := by
  unfold FSMInstance.set
  simp [mapHas, h]

/-- A duplicate name makes `set` throw the already-exists `RangeError`. -/
theorem set_dup {C : Type} (inst : FSMInstance C) (name : String) (sources : List String)
    (dest : String) (h : mapHas name inst.transitions = true) :
    inst.set name sources dest = Except.error ⟨dupMsg name⟩ := by
  unfold FSMInstance.set
  simp [h]

/-! ## The claims -/

/-- Claim C1: for every instance and every registered transition `t` legal
from the current state (wildcard, or current state among its sources),
`move` sets the current state to `t.dest` and synchronously dispatches
exactly the callbacks registered for `t.dest`, each exactly once, in
registration order, with arguments `(instance, previousState, dest)`
(the trace records `(callback, previousState, dest)`); callbacks of
other states do not appear in the trace, an empty registry gives an
empty trace and no error, and `move` returns the (updated) instance. -/
theorem C1_move_success_dispatch {C : Type} (inst : FSMInstance C) (name : String)
    (t : FSMTransition)
    (hget : mapGet name inst.transitions = some t)
    (hlegal : t.willcard = true ∨ inst._state ∈ t.sources) :
    inst.move name = Except.ok ({ inst with _state := t.dest },
      (listenersOf inst t.dest).map (fun fn => (fn, inst._state, t.dest))) :=
  move_ok inst name t hget hlegal

/-- Concrete run of `C1_move_success_dispatch`: two callbacks on the
destination fire in order, the one on another state does not. -/
theorem C1_witness :
    (FSMInstance.mk "idle" [] [("start", FSMTransition.make "start" ["idle"] "running")]
        [] [("running", [7, 8]), ("idle", [9])] : FSMInstance Nat).move "start" =
      Except.ok (FSMInstance.mk "running" []
        [("start", FSMTransition.make "start" ["idle"] "running")]
        [] [("running", [7, 8]), ("idle", [9])],
        [(7, "idle", "running"), (8, "idle", "running")]) := by
  have h := C1_move_success_dispatch
    (FSMInstance.mk "idle" [] [("start", FSMTransition.make "start" ["idle"] "running")]
      [] [("running", [7, 8]), ("idle", [9])] : FSMInstance Nat)
    "start" (FSMTransition.make "start" ["idle"] "running")
    (by decide) (Or.inr (by decide))
  simpa [listenersOf, mapGet, FSMTransition.make] using h

/-- Claim C2: `move` fails (with a `RangeError`) exactly when the name is
unregistered, or the transition is not a wildcard and the current
state is not among its sources.  In the embedding a failing `move`
returns only the error, so the state is untouched and no callback
trace is produced. -/
theorem C2_move_error_iff {C : Type} (inst : FSMInstance C) (name : String) :
    (∃ e : RangeError, inst.move name = Except.error e) ↔
      (mapGet name inst.transitions = none ∨
        ∃ t, mapGet name inst.transitions = some t ∧ t.willcard = false ∧
          inst._state ∉ t.sources) := by
  constructor
  · rintro ⟨e, he⟩
    cases hget : mapGet name inst.transitions with
    | none => exact Or.inl rfl
    | some t =>
      refine Or.inr ⟨t, rfl, ?_⟩
      by_cases hw : t.willcard = true
      · rw [move_ok inst name t hget (Or.inl hw)] at he
        exact absurd he (by simp)
      · by_cases hmem : inst._state ∈ t.sources
        · rw [move_ok inst name t hget (Or.inr hmem)] at he
          exact absurd he (by simp)
        · exact ⟨Bool.eq_false_iff.mpr hw, hmem⟩
  · rintro (hget | ⟨t, hget, hw, hs⟩)
    · exact ⟨_, move_not_found inst name hget⟩
    · exact ⟨_, move_illegal inst name t hget hw hs⟩

/-- Concrete run of `C2_move_error_iff`: an unregistered name makes
`move` fail. -/
theorem C2_witness :
    ∃ e : RangeError, (FSMInstance.construct Nat "idle").move "start" = Except.error e :=
  (C2_move_error_iff (FSMInstance.construct Nat "idle") "start").mpr (Or.inl rfl)

/-- Claim C3: `can` returns `false` on an unregistered name, `true` on a
wildcard transition, and otherwise `true` iff the current state is in
the transition's source list.  (`can` is a pure `Bool`-valued function
of the instance in this embedding: it can neither mutate nor throw.) -/
theorem C3_can_spec {C : Type} (inst : FSMInstance C) (name : String) :
    (mapGet name inst.transitions = none → inst.can name = false) ∧
    (∀ t, mapGet name inst.transitions = some t → t.willcard = true →
      inst.can name = true) ∧
    (∀ t, mapGet name inst.transitions = some t → t.willcard = false →
      (inst.can name = true ↔ inst._state ∈ t.sources)) := by
  refine ⟨?_, ?_, ?_⟩
  · intro h
    unfold FSMInstance.can
    rw [h]
  · intro t hget hw
    unfold FSMInstance.can
    rw [hget]
    simp [hw]
  · intro t hget hw
    unfold FSMInstance.can
    rw [hget]
    by_cases hmem : inst._state ∈ t.sources
    · simp [hw, hmem]
    · simp [hw, hmem]

/-- Concrete run of `C3_can_spec`: `can` is `false` on a fresh
instance with no registered transitions. -/
theorem C3_witness :
    (FSMInstance.construct Nat "idle").can "start" = false :=
  (C3_can_spec (FSMInstance.construct Nat "idle") "start").1 rfl

/-- Claim C6: immediately after construction the current state is the
supplied one, no transition is registered, and for every name `can`
is `false` while `move` fails with the not-found `RangeError`. -/
theorem C6_construct_initial (C : Type) (s : String) :
    (FSMInstance.construct C s).state = s ∧
    (FSMInstance.construct C s).transitions = [] ∧
    (∀ n, (FSMInstance.construct C s).can n = false ∧
      (FSMInstance.construct C s).move n = Except.error ⟨notFoundMsg n⟩) :=
  ⟨rfl, rfl, fun n => ⟨rfl, move_not_found _ n rfl⟩⟩

/-! ### Further shared lemmas for `set` -/

theorem mapSet_self_of_get {α : Type} (k : String) (v : α) :
    ∀ m : List (String × α), mapGet k m = some v → mapSet k v m = m
  | [], hg => by simp [mapGet] at hg
  | (k2, v2) :: rest, hg => by
    by_cases h : k2 = k
    · subst h
      have hv : v2 = v := by simpa [mapGet] using hg
      simp [mapSet, hv]
    · simp only [mapGet, if_neg h] at hg
      simp [mapSet, h, mapSet_self_of_get k v rest hg]

theorem make_wildcard (name : String) (sources : List String) (dest : String)
    (hw : "*" ∈ sources) :
    FSMTransition.make name sources dest = ⟨name, ["*"], dest, true⟩ := by
  simp [FSMTransition.make, hw]

/-- Inversion of a successful `set`: the name was fresh and the result
is the loop applied to the instance extended with the new transition. -/
theorem set_ok_inv {C : Type} {inst inst2 : FSMInstance C} {name dest : String}
    {sources : List String}
    (h : inst.set name sources dest = Except.ok inst2) :
    mapGet name inst.transitions = none ∧
    inst2 = setLoop dest sources
      { inst with
        transitions := mapSet name (FSMTransition.make name sources dest) inst.transitions,
        states := setAdd dest inst.states } := by
  cases hg : mapGet name inst.transitions with
  | some t =>
    rw [set_dup inst name sources dest (by simp [mapHas, hg])] at h
    exact absurd h (by simp)
  | none =>
    rw [set_fresh inst name sources dest hg] at h
    exact ⟨rfl, (Except.ok.inj h).symm⟩

/-- After a successful `set`, looking up the name yields the stored
(possibly wildcard-collapsed) transition. -/
theorem set_ok_get {C : Type} {inst inst2 : FSMInstance C} {name dest : String}
    {sources : List String}
    (h : inst.set name sources dest = Except.ok inst2) :
    mapGet name inst2.transitions = some (FSMTransition.make name sources dest) := by
  obtain ⟨hf, he⟩ := set_ok_inv h
  subst he
  rw [setLoop_transitions]
  exact mapGet_mapSet_self name _ inst.transitions

/-- `can` answers `true` on a wildcard transition. -/
theorem can_wildcard {C : Type} (inst : FSMInstance C) (name : String) (t : FSMTransition)
    (hget : mapGet name inst.transitions = some t) (hw : t.willcard = true) :
    inst.can name = true := by
  unfold FSMInstance.can
  rw [hget]
  simp [hw]

/-- Claim C4: registering with `"*"` anywhere in the sources (alone or mixed
with real states) stores the transition with source list exactly
`["*"]` and the wildcard mark, and from every possible current state
`can` answers `true` and `move` succeeds (landing on `dest`). -/
theorem C4_wildcard_always_legal {C : Type} (inst : FSMInstance C) (name dest : String)
    (sources : List String) (hw : "*" ∈ sources)
    (hfresh : mapGet name inst.transitions = none) :
    ∃ inst2, inst.set name sources dest = Except.ok inst2 ∧
      mapGet name inst2.transitions = some ⟨name, ["*"], dest, true⟩ ∧
      ∀ st, ({ inst2 with _state := st } : FSMInstance C).can name = true ∧
        ∃ evs, ({ inst2 with _state := st } : FSMInstance C).move name =
          Except.ok ({ inst2 with _state := dest }, evs) := by
  have hset := set_fresh inst name sources dest hfresh
  have hget := (set_ok_get hset).trans
    (congrArg some (make_wildcard name sources dest hw))
  refine ⟨_, hset, hget, fun st => ⟨?_, ?_⟩⟩
  · exact can_wildcard _ name ⟨name, ["*"], dest, true⟩ hget rfl
  · exact ⟨_, move_ok _ name ⟨name, ["*"], dest, true⟩ hget (Or.inl rfl)⟩

/-- Concrete run of `C4_wildcard_always_legal` with mixed sources. -/
theorem C4_witness :
    ∃ inst2, (FSMInstance.construct Nat "A").set "go" ["*", "B"] "C" = Except.ok inst2 ∧
      mapGet "go" inst2.transitions = some ⟨"go", ["*"], "C", true⟩ ∧
      ∀ st, ({ inst2 with _state := st } : FSMInstance Nat).can "go" = true ∧
        ∃ evs, ({ inst2 with _state := st } : FSMInstance Nat).move "go" =
          Except.ok ({ inst2 with _state := "C" }, evs) :=
  C4_wildcard_always_legal (FSMInstance.construct Nat "A") "go" "C" ["*", "B"]
    (by decide) rfl

/-- Claim C5: a second `set` with an already-registered name fails with the
already-exists `RangeError`, and the first registration is still the
stored one (a failing `set` in the embedding returns only the error,
so no field of the instance is altered). -/
theorem C5_set_duplicate {C : Type} (inst inst1 : FSMInstance C) (name d1 d2 : String)
    (s1 s2 : List String)
    (h : inst.set name s1 d1 = Except.ok inst1) :
    inst1.set name s2 d2 = Except.error ⟨dupMsg name⟩ ∧
      mapGet name inst1.transitions = some (FSMTransition.make name s1 d1) := by
  have hget := set_ok_get h
  exact ⟨set_dup inst1 name s2 d2 (by simp [mapHas, hget]), hget⟩

/-- Concrete run of `C5_set_duplicate`. -/
theorem C5_witness :
    (FSMInstance.mk "i" ["b", "a"] [("t", FSMTransition.make "t" ["a"] "b")]
        [("a", ["b"])] [] : FSMInstance Nat).set "t" ["c"] "d"
        = Except.error ⟨dupMsg "t"⟩ ∧
      mapGet "t" (FSMInstance.mk "i" ["b", "a"] [("t", FSMTransition.make "t" ["a"] "b")]
        [("a", ["b"])] [] : FSMInstance Nat).transitions
        = some (FSMTransition.make "t" ["a"] "b") :=
  C5_set_duplicate (FSMInstance.construct Nat "i") _ "t" "b" "d" ["a"] ["c"] rfl

/-- Claim C9: a successful `set` leaves the current state and the listener
registry untouched (it only touches the transition map, the known
states and the adjacency map), and returns the instance. -/
theorem C9_set_frame {C : Type} (inst inst2 : FSMInstance C) (name dest : String)
    (sources : List String)
    (h : inst.set name sources dest = Except.ok inst2) :
    inst2._state = inst._state ∧ inst2.listeners = inst.listeners := by
  obtain ⟨hf, he⟩ := set_ok_inv h
  subst he
  exact ⟨setLoop_state dest sources _, setLoop_listeners dest sources _⟩

/-- Concrete run of `C9_set_frame`. -/
theorem C9_witness :
    (FSMInstance.mk "i" ["b", "a"] [("t", FSMTransition.make "t" ["a"] "b")]
        [("a", ["b"])] [("x", [3])] : FSMInstance Nat)._state = "i" ∧
      (FSMInstance.mk "i" ["b", "a"] [("t", FSMTransition.make "t" ["a"] "b")]
        [("a", ["b"])] [("x", [3])] : FSMInstance Nat).listeners = [("x", [3])] :=
  C9_set_frame (FSMInstance.mk "i" [] [] [] [("x", [3])]) _ "t" "b" ["a"] rfl

/-- Claim C10: with `"*"` mixed among explicit sources, the known-states set
and the adjacency map are fed from the original, pre-collapse source
list: every supplied entry (the literal `"*"` included, and the
explicit sources dropped from the stored transition) joins the known
states and gets `dest` recorded as reachable from it, while the stored
transition's source list is collapsed to `["*"]`. -/
theorem C10_set_index_from_original_sources {C : Type} (inst : FSMInstance C)
    (name dest : String) (sources : List String)
    (hw : "*" ∈ sources) (hfresh : mapGet name inst.transitions = none) :
    ∃ inst2, inst.set name sources dest = Except.ok inst2 ∧
      mapGet name inst2.transitions = some ⟨name, ["*"], dest, true⟩ ∧
      (∀ x ∈ sources, x ∈ inst2.states ∧ dest ∈ pathsOf inst2 x) ∧
      "*" ∈ inst2.states ∧ dest ∈ inst2.states := by
  have hset := set_fresh inst name sources dest hfresh
  have hget := (set_ok_get hset).trans
    (congrArg some (make_wildcard name sources dest hw))
  refine ⟨_, hset, hget, fun x hx =>
    ⟨setLoop_states_of_mem dest x sources _ hx, setLoop_paths_dest_of_mem dest x sources _ hx⟩,
    setLoop_states_of_mem dest "*" sources _ hw, ?_⟩
  exact setLoop_states_mono dest dest sources _ (setAdd_self dest inst.states)

/-- Concrete run of `C10_set_index_from_original_sources`: with
sources `["*", "B"]` both `"*"` and `"B"` are indexed. -/
theorem C10_witness :
    ∃ inst2, (FSMInstance.construct Nat "A").set "go" ["*", "B"] "C" = Except.ok inst2 ∧
      mapGet "go" inst2.transitions = some ⟨"go", ["*"], "C", true⟩ ∧
      (∀ x ∈ ["*", "B"], x ∈ inst2.states ∧ "C" ∈ pathsOf inst2 x) ∧
      "*" ∈ inst2.states ∧ "C" ∈ inst2.states :=
  C10_set_index_from_original_sources (FSMInstance.construct Nat "A") "go" "C" ["*", "B"]
    (by decide) rfl

/-- Claim C7: `off(s)` without a listener removes every callback registered
for `s`; `off(s, fn)` removes at most the first occurrence of `fn`
(reference identity) from `s`'s list, keeping the rest in order; with
no matching registration it is a silent no-op returning the unchanged
instance; other states' lists are never touched.  (`off` is total in
the embedding, so it can never signal an error, and it returns the
instance.) -/
theorem C7_off_spec {C : Type} [DecidableEq C] (inst : FSMInstance C) (s : String) (fn : C) :
    (listenersOf (inst.off s none) s = []) ∧
    (fn ∉ listenersOf inst s → inst.off s (some fn) = inst) ∧
    (∀ a b, listenersOf inst s = a ++ fn :: b → fn ∉ a →
      listenersOf (inst.off s (some fn)) s = a ++ b) ∧
    (∀ s2, s2 ≠ s → listenersOf (inst.off s none) s2 = listenersOf inst s2 ∧
      listenersOf (inst.off s (some fn)) s2 = listenersOf inst s2) := by
  refine ⟨?_, ?_, ?_, ?_⟩
  · simp [FSMInstance.off, listenersOf, mapGet_mapDelete_self]
  · intro hnot
    cases hg : mapGet s inst.listeners with
    | none => simp [FSMInstance.off, hg]
    | some l =>
      have hnl : fn ∉ l := by simpa [listenersOf, hg] using hnot
      simp [FSMInstance.off, hg, removeFirst_of_not_mem fn l hnl,
        mapSet_self_of_get s l inst.listeners hg]
  · intro a b hl hna
    have hg : mapGet s inst.listeners = some (a ++ fn :: b) := by
      cases hg2 : mapGet s inst.listeners with
      | none => simp [listenersOf, hg2] at hl
      | some l =>
        have : l = a ++ fn :: b := by simpa [listenersOf, hg2] using hl
        exact congrArg some this
    simp [FSMInstance.off, hg, listenersOf, mapGet_mapSet_self,
      removeFirst_append fn a b hna]
  · intro s2 hne
    constructor
    · simp [FSMInstance.off, listenersOf, mapGet_mapDelete_ne s s2 hne]
    · cases hg : mapGet s inst.listeners with
      | none => simp [FSMInstance.off, hg]
      | some l => simp [FSMInstance.off, hg, listenersOf, mapGet_mapSet_ne s s2 _ hne]

/-- Concrete run of `C7_off_spec`: removing callback `1` from the list
`[1, 2, 1]` keeps `[2, 1]` in order. -/
theorem C7_witness :
    listenersOf ((FSMInstance.mk "s" [] [] [] [("a", [1, 2, 1])] : FSMInstance Nat).off "a"
      (some 1)) "a" = [2, 1] :=
  (C7_off_spec (FSMInstance.mk "s" [] [] [] [("a", [1, 2, 1])]) "a" 1).2.2.1 [] [2, 1]
    rfl (by decide)

/-- Claim C8: `on(s, fn)` appends `fn` to `s`'s callback list (creating it
when absent), touches no other state's list and does not fire `fn`
(in the embedding `on` produces no invocation trace at all);
registering the identical callback twice appends it twice, so a `move`
landing on `s` fires it twice. -/
theorem C8_on_appends {C : Type} (inst : FSMInstance C) (s : String) (fn : C) :
    (listenersOf (inst.on s fn) s = listenersOf inst s ++ [fn]) ∧
    (∀ s2, s2 ≠ s → listenersOf (inst.on s fn) s2 = listenersOf inst s2) ∧
    (∀ name t, mapGet name inst.transitions = some t → t.dest = s →
      (t.willcard = true ∨ inst._state ∈ t.sources) →
      ((inst.on s fn).on s fn).move name =
        Except.ok ({ ((inst.on s fn).on s fn) with _state := s },
          (listenersOf inst s ++ [fn, fn]).map (fun g => (g, inst._state, s)))) := by
  refine ⟨?_, ?_, ?_⟩
  · simp [FSMInstance.on, listenersOf, mapGet_mapSet_self]
  · intro s2 hne
    simp [FSMInstance.on, listenersOf, mapGet_mapSet_ne s s2 _ hne]
  · intro name t hget ht hlegal
    have h := move_ok ((inst.on s fn).on s fn) name t hget hlegal
    rw [h]
    have hl : listenersOf ((inst.on s fn).on s fn) t.dest
        = listenersOf inst s ++ [fn, fn] := by
      rw [ht]
      simp [FSMInstance.on, listenersOf, mapGet_mapSet_self]
    rw [hl, ht]
    rfl

/-- Concrete run of `C8_on_appends`: the twice-registered callback `9`
fires twice, after the earlier callback `5`, when `move` lands on its
state. -/
theorem C8_witness :
    (((FSMInstance.mk "A" [] [("go", FSMTransition.make "go" ["A"] "B")] []
        [("B", [5])] : FSMInstance Nat).on "B" 9).on "B" 9).move "go" =
      Except.ok ((FSMInstance.mk "B" [] [("go", FSMTransition.make "go" ["A"] "B")] []
          [("B", [5, 9, 9])] : FSMInstance Nat),
        [(5, "A", "B"), (9, "A", "B"), (9, "A", "B")]) :=
  (C8_on_appends (FSMInstance.mk "A" [] [("go", FSMTransition.make "go" ["A"] "B")] []
    [("B", [5])]) "B" 9).2.2 "go" (FSMTransition.make "go" ["A"] "B") rfl rfl
    (Or.inr (by decide))
